import Mathlib

/-!
Shallow embedding of the ikusasa-lethu comments service (Express + JSON
document store).  The definitions below are translated from the route and
utility logic in `src/server.js` and `src/unnamed/part_000` (the two files
share the same handler logic; where both exist the behaviour is identical
and a single embedding covers both).  Machine strings are modelled as Lean
`String`/`List Char`; JSON request-body values are modelled by `JSVal`;
the document store (filesystem or blob) is a map from the
(studentNumber, sanitizedSite) key to an optional stored comment list.
-/

/-- A JavaScript value as it can appear in a parsed JSON request body:
a string, a number, a boolean, `null`, or `undefined` (absent field). -/
inductive JSVal where
  | str (s : String)
  | num (n : Int)
  | boolv (b : Bool)
  | nullv
  | undef
deriving DecidableEq

/-- JavaScript truthiness test (`!v` in the source): falsy values are the
empty string, the number 0, `false`, `null` and `undefined`. -/
def JSVal.falsy : JSVal → Bool
  | .str s => s = ""
  | .num n => n = 0
  | .boolv b => !b
  | .nullv => true
  | .undef => true

/-- The characters trimmed by JavaScript `String.prototype.trim`
(WhiteSpace and LineTerminator code points). -/
def jsWhitespaceChars : List Char :=
  [' ', '\t', '\n', '\r', '\x0B', '\x0C', ' ', ' ',
   ' ', ' ', ' ', ' ', ' ', ' ', ' ',
   ' ', ' ', ' ', ' ', ' ', ' ', ' ',
   ' ', '　', '﻿']

def jsWhitespace (c : Char) : Bool := jsWhitespaceChars.contains c

/-- Drop trailing JS whitespace. -/
def jsTrimEnd (cs : List Char) : List Char :=
  (cs.reverse.dropWhile jsWhitespace).reverse

/-- JavaScript `trim()`: drop leading and trailing whitespace. -/
def jsTrim (cs : List Char) : List Char :=
  jsTrimEnd (cs.dropWhile jsWhitespace)

/-- Skip up to and including the first `>` of a character list;
`none` when the list holds no `>`. -/
def splitAfterGt : List Char → Option (List Char)
  | [] => none
  | c :: rest => if c = '>' then some rest else splitAfterGt rest

theorem splitAfterGt_length :
    ∀ {cs rest : List Char}, splitAfterGt cs = some rest →
      rest.length < cs.length := by
  intro cs
  induction cs with
  | nil => intro rest h; simp [splitAfterGt] at h
  | cons c cs ih =>
    intro rest h
    simp only [splitAfterGt] at h
    by_cases hc : c = '>'
    · simp [hc] at h
      simp [← h, List.length_cons, Nat.lt_succ_self]
    · simp [hc] at h
      exact Nat.lt_succ_of_lt (ih h)

/-- Fuel-indexed worker for `stripTags`; the fuel only bounds the
recursion depth (any fuel at least the list length gives the same
result, see `stripTagsF_irrel`). -/
def stripTagsF : Nat → List Char → List Char
  | 0, _ => []
  | _, [] => []
  | fuel + 1, c :: rest =>
    if c = '<' then
      match splitAfterGt rest with
      | some rest2 => stripTagsF fuel rest2
      | none => c :: stripTagsF fuel rest
    else c :: stripTagsF fuel rest

/-- The global replacement `s.replace(/<[^>]*>/g, '')` of the source,
as the JS regex engine performs it: scanning left to right, a `<` that has
a later `>` is removed together with everything up to and including the
first such `>`; a `<` with no later `>` is kept. -/
def stripTags (cs : List Char) : List Char := stripTagsF cs.length cs

theorem stripTagsF_irrel :
    ∀ (fuel fuel' : Nat) (cs : List Char), cs.length ≤ fuel →
      cs.length ≤ fuel' → stripTagsF fuel cs = stripTagsF fuel' cs := by
  intro fuel
  induction fuel with
  | zero =>
    intro fuel' cs h _
    have : cs = [] := List.length_eq_zero.mp (Nat.le_zero.mp h)
    subst this
    cases fuel' <;> rfl
  | succ fuel ih =>
    intro fuel' cs h h'
    cases cs with
    | nil => cases fuel' <;> rfl
    | cons c rest =>
      cases fuel' with
      | zero => exact absurd h' (by simp)
      | succ fuel' =>
        have hr : rest.length ≤ fuel := by simpa using h
        have hr' : rest.length ≤ fuel' := by simpa using h'
        simp only [stripTagsF]
        by_cases hc : c = '<'
        · simp only [hc, if_pos rfl]
          cases hsp : splitAfterGt rest with
          | none => rw [ih fuel' rest hr hr']
          | some rest2 =>
            have h2 : rest2.length < rest.length := splitAfterGt_length hsp
            exact ih fuel' rest2 (Nat.le_of_lt (Nat.lt_of_lt_of_le h2 hr))
              (Nat.le_of_lt (Nat.lt_of_lt_of_le h2 hr'))
        · simp only [if_neg hc]
          rw [ih fuel' rest hr hr']

theorem stripTags_nil : stripTags [] = [] := rfl

theorem stripTags_cons_of_ne {c : Char} (rest : List Char) (hc : c ≠ '<') :
    stripTags (c :: rest) = c :: stripTags rest := by
  simp only [stripTags, List.length_cons, stripTagsF, if_neg hc]

theorem stripTags_cons_lt_some {rest rest2 : List Char}
    (h : splitAfterGt rest = some rest2) :
    stripTags ('<' :: rest) = stripTags rest2 := by
  have h2 : rest2.length < rest.length := splitAfterGt_length h
  simp only [stripTags, List.length_cons, stripTagsF, if_pos rfl, h]
  exact stripTagsF_irrel rest.length rest2.length rest2
    (Nat.le_of_lt h2) (Nat.le_refl _)

theorem stripTags_cons_lt_none {rest : List Char}
    (h : splitAfterGt rest = none) :
    stripTags ('<' :: rest) = '<' :: stripTags rest := by
  simp only [stripTags, List.length_cons, stripTagsF, if_pos rfl, h,
    ite_self]

/-- `sanitizeText` from the source: strip HTML tags then trim; a
non-string input yields the empty string. -/
def sanitizeText : JSVal → String
  | .str s => String.mk (jsTrim (stripTags s.data))
  | _ => ""

/-- The character class `[a-zA-Z0-9.\-_]` kept by `sanitizeSiteName`. -/
def siteAllowed (c : Char) : Bool :=
  c.isAlphanum || c = '.' || c = '-' || c = '_'

/-- `sanitizeSiteName` on a string: strip every character outside
`[a-zA-Z0-9.\-_]`, then trim. -/
def sanitizeSiteNameStr (s : String) : String :=
  String.mk (jsTrim (s.data.filter siteAllowed))

/-- `sanitizeSiteName` from the source: non-string input yields the
empty string. -/
def sanitizeSiteName : JSVal → String
  | .str s => sanitizeSiteNameStr s
  | _ => ""

/-- `validateStudentNumber`: the regex test `^[a-zA-Z0-9]{3,20}$`. -/
def validateStudentNumber (s : String) : Bool :=
  decide (3 ≤ s.length) && decide (s.length ≤ 20) &&
    s.data.all Char.isAlphanum

/-- A stored comment `{id, site, sender, text, ts}`. -/
structure Comment where
  id : String
  site : String
  sender : String
  text : String
  ts : String
deriving DecidableEq

/-- The document store: one optional JSON document (a comment list) per
(studentNumber, sanitizedSite) key — `none` models an absent
file/blob. -/
def Store : Type := String → String → Option (List Comment)

/-- `readCommentsFile` / a successful blob read: an absent document
(ENOENT / blob not found) yields the empty list. -/
def readCommentsFile (σ : Store) (sn site : String) : List Comment :=
  (σ sn site).getD []

/-- `writeCommentsFile` / blob put: replace the document at one key,
leaving every other key untouched. -/
def writeCommentsFile (σ : Store) (sn site : String) (l : List Comment) :
    Store :=
  fun sn2 site2 => if sn2 = sn ∧ site2 = site then some l else σ sn2 site2

/-- A response body: an error object, a comment array, a single comment,
or a success-message object. -/
inductive Body where
  | err (m : String)
  | list (cs : List Comment)
  | single (c : Comment)
  | msg (m : String)
deriving DecidableEq

/-- An HTTP response: status code and JSON body. -/
abbrev Response := Nat × Body

/-- GET `/api/comments` handler: header and site validation, then the
stored list (empty when absent). -/
def getCommentsHandler (σ : Store) (header : Option String)
    (site : Option String) : Response × Store :=
  match header with
  | none => ((400, .err "Missing X-Student-Number header"), σ)
  | some sn =>
    if sn = "" then ((400, .err "Missing X-Student-Number header"), σ)
    else if !validateStudentNumber sn then
      ((401, .err "Invalid student number format"), σ)
    else match site with
    | none => ((400, .err "Missing site parameter"), σ)
    | some st =>
      if st = "" then ((400, .err "Missing site parameter"), σ)
      else
        let s := sanitizeSiteNameStr st
        if s = "" then ((400, .err "Invalid site parameter"), σ)
        else ((200, .list (readCommentsFile σ sn s)), σ)

/-- POST `/api/comments` handler.  `nid` and `nts` stand for the
generated id (`generateId()`) and timestamp (`new Date().toISOString()`),
passed as parameters to model their nondeterminism. -/
def postCommentsHandler (σ : Store) (header : Option String)
    (site text sender : JSVal) (nid nts : String) : Response × Store :=
  match header with
  | none => ((400, .err "Missing X-Student-Number header"), σ)
  | some sn =>
    if sn = "" then ((400, .err "Missing X-Student-Number header"), σ)
    else if !validateStudentNumber sn then
      ((401, .err "Invalid student number format"), σ)
    else if site.falsy || text.falsy then
      ((400, .err "Missing required fields: site and text"), σ)
    else
      let sanitizedSite := sanitizeSiteName site
      let sanitizedText := sanitizeText text
      let sanitizedSender := sanitizeText sender
      if sanitizedSite = "" then ((400, .err "Invalid site parameter"), σ)
      else if sanitizedText.length = 0 then
        ((400, .err "Text cannot be empty after sanitization"), σ)
      else if 280 < sanitizedText.length then
        ((400, .err "Text exceeds maximum length of 280 characters"), σ)
      else
        let c : Comment :=
          ⟨nid, sanitizedSite, sanitizedSender, sanitizedText, nts⟩
        let comments := readCommentsFile σ sn sanitizedSite
        ((201, .single c),
         writeCommentsFile σ sn sanitizedSite (comments ++ [c]))

/-- DELETE `/api/comments/:commentId` handler: filter the stored list by
id; 404 (and no write) when nothing matched, else write the filtered
list. -/
def deleteCommentHandler (σ : Store) (header : Option String)
    (site : Option String) (commentId : String) : Response × Store :=
  match header with
  | none => ((401, .err "Invalid or missing student number"), σ)
  | some sn =>
    if sn = "" || !validateStudentNumber sn then
      ((401, .err "Invalid or missing student number"), σ)
    else match site with
    | none => ((400, .err "Missing site parameter"), σ)
    | some st =>
      if st = "" then ((400, .err "Missing site parameter"), σ)
      else
        let s := sanitizeSiteNameStr st
        if s = "" then ((400, .err "Invalid site parameter"), σ)
        else
          let comments := readCommentsFile σ sn s
          let filtered := comments.filter (fun c => c.id ≠ commentId)
          if filtered.length = comments.length then
            ((404, .err "Comment not found"), σ)
          else
            ((200, .msg "Comment deleted successfully"),
             writeCommentsFile σ sn s filtered)

/-! ### Basic facts about the validators and sanitizers -/

theorem validateStudentNumber_ne_empty {s : String}
    (h : validateStudentNumber s = true) : s ≠ "" := by
  intro he
  subst he
  exact absurd h (by decide)

theorem sanitizeSiteName_falsy {v : JSVal}
    (h : sanitizeSiteName v ≠ "") : v.falsy = false := by
  cases v with
  | str s =>
    simp only [JSVal.falsy, decide_eq_false_iff_not]
    intro he
    subst he
    exact h rfl
  | num n => exact absurd rfl h
  | boolv b => exact absurd rfl h
  | nullv => exact absurd rfl h
  | undef => exact absurd rfl h

theorem sanitizeText_falsy {v : JSVal}
    (h : sanitizeText v ≠ "") : v.falsy = false := by
  cases v with
  | str s =>
    simp only [JSVal.falsy, decide_eq_false_iff_not]
    intro he
    subst he
    exact h rfl
  | num n => exact absurd rfl h
  | boolv b => exact absurd rfl h
  | nullv => exact absurd rfl h
  | undef => exact absurd rfl h

theorem sanitizeSiteNameStr_arg_ne_empty {s : String}
    (h : sanitizeSiteNameStr s ≠ "") : s ≠ "" := by
  intro he
  subst he
  exact h rfl

/-- Read-after-write on the same key yields exactly the written list. -/
theorem readCommentsFile_write_same (σ : Store) (sn site : String)
    (l : List Comment) :
    readCommentsFile (writeCommentsFile σ sn site l) sn site = l := by
  simp [readCommentsFile, writeCommentsFile]

/-- Writes leave every other key untouched. -/
theorem writeCommentsFile_other (σ : Store) (sn site sn2 site2 : String)
    (l : List Comment) (h : ¬(sn2 = sn ∧ site2 = site)) :
    writeCommentsFile σ sn site l sn2 site2 = σ sn2 site2 := by
  simp [writeCommentsFile, h]

/-! ### Handler path lemmas -/

/-- Success path of the GET handler: valid student number and a site that
sanitizes to a non-empty name give 200 with the stored list. -/
theorem getCommentsHandler_ok (σ : Store) (sn site : String)
    (hsn : validateStudentNumber sn = true)
    (hsite : sanitizeSiteNameStr site ≠ "") :
    getCommentsHandler σ (some sn) (some site) =
      ((200, .list (readCommentsFile σ sn (sanitizeSiteNameStr site))),
       σ) := by
  have hsn' : sn ≠ "" := validateStudentNumber_ne_empty hsn
  have hst : site ≠ "" := sanitizeSiteNameStr_arg_ne_empty hsite
  simp [getCommentsHandler, hsn, hsn', hst, hsite]

/-- Success path of the POST handler: valid inputs append the new comment
at the end of the stored list and answer 201 with the created
comment. -/
theorem postCommentsHandler_created (σ : Store) (sn : String)
    (site text sender : JSVal) (nid nts : String)
    (hsn : validateStudentNumber sn = true)
    (hsite : sanitizeSiteName site ≠ "")
    (htext : sanitizeText text ≠ "")
    (hlen : (sanitizeText text).length ≤ 280) :
    postCommentsHandler σ (some sn) site text sender nid nts =
      ((201, .single ⟨nid, sanitizeSiteName site, sanitizeText sender,
                      sanitizeText text, nts⟩),
       writeCommentsFile σ sn (sanitizeSiteName site)
         (readCommentsFile σ sn (sanitizeSiteName site) ++
          [⟨nid, sanitizeSiteName site, sanitizeText sender,
            sanitizeText text, nts⟩])) := by
  have hsn' : sn ≠ "" := validateStudentNumber_ne_empty hsn
  have hs : site.falsy = false := sanitizeSiteName_falsy hsite
  have ht : text.falsy = false := sanitizeText_falsy htext
  have hlen0 : (sanitizeText text).length ≠ 0 := by
    intro h0
    exact htext (String.ext (List.length_eq_zero.mp h0))
  have hlen1 : ¬(280 < (sanitizeText text).length) := Nat.not_lt.mpr hlen
  simp [postCommentsHandler, hsn, hsn', hs, ht, hsite, hlen0, hlen1]

/-- Not-found path of the DELETE handler: when no stored comment carries
the requested id, the handler answers 404 and the store is returned
unchanged (no write). -/
theorem deleteCommentHandler_notFound (σ : Store) (sn site cid : String)
    (hsn : validateStudentNumber sn = true)
    (hsite : sanitizeSiteNameStr site ≠ "")
    (hid : ∀ c ∈ readCommentsFile σ sn (sanitizeSiteNameStr site),
      c.id ≠ cid) :
    deleteCommentHandler σ (some sn) (some site) cid =
      ((404, .err "Comment not found"), σ) := by
  have hsn' : sn ≠ "" := validateStudentNumber_ne_empty hsn
  have hst : site ≠ "" := sanitizeSiteNameStr_arg_ne_empty hsite
  simp [deleteCommentHandler, hsn, hsn', hst, hsite]
  exact hid

/-- Found path of the DELETE handler: when some stored comment carries the
requested id, the handler writes the filtered list and answers 200. -/
theorem deleteCommentHandler_found (σ : Store) (sn site cid : String)
    (hsn : validateStudentNumber sn = true)
    (hsite : sanitizeSiteNameStr site ≠ "")
    (hid : ∃ c ∈ readCommentsFile σ sn (sanitizeSiteNameStr site),
      c.id = cid) :
    deleteCommentHandler σ (some sn) (some site) cid =
      ((200, .msg "Comment deleted successfully"),
       writeCommentsFile σ sn (sanitizeSiteNameStr site)
         ((readCommentsFile σ sn (sanitizeSiteNameStr site)).filter
           (fun c => c.id ≠ cid))) := by
  have hsn' : sn ≠ "" := validateStudentNumber_ne_empty hsn
  have hst : site ≠ "" := sanitizeSiteNameStr_arg_ne_empty hsite
  simp [deleteCommentHandler, hsn, hsn', hst, hsite]
  exact hid

theorem sanitizeSiteName_str (s : String) :
    sanitizeSiteName (.str s) = sanitizeSiteNameStr s := rfl

/-! ### Blob-backed store adapter (`src/server.js`) -/

/-- The body of the `try` block of `readCommentsFromBlob`: with the
`BLOB_READ_WRITE_TOKEN` credential absent (or empty) it throws; otherwise
an absent blob (`head` not found) yields the empty list and a present
blob yields its parsed content. -/
def readBlobAttempt (token : Option String)
    (doc : Option (List Comment)) : Except String (List Comment) :=
  match token with
  | none =>
    Except.error "BLOB_READ_WRITE_TOKEN environment variable is not set"
  | some t =>
    if t = "" then
      Except.error "BLOB_READ_WRITE_TOKEN environment variable is not set"
    else Except.ok (doc.getD [])

/-- `readCommentsFromBlob` from `src/server.js`: the whole attempt is
wrapped in a `try`/`catch` whose handler logs the error and returns the
empty list. -/
def readCommentsFromBlob (token : Option String)
    (doc : Option (List Comment)) : List Comment :=
  match readBlobAttempt token doc with
  | Except.ok l => l
  | Except.error _ => []

/-- `writeCommentsToBlob` from `src/server.js`: throws (uncaught inside
the function) when the credential is absent, otherwise performs the
`put`. -/
def writeCommentsToBlob (token : Option String) (comments : List Comment) :
    Except String (List Comment) :=
  match token with
  | none =>
    Except.error "BLOB_READ_WRITE_TOKEN environment variable is not set"
  | some t =>
    if t = "" then
      Except.error "BLOB_READ_WRITE_TOKEN environment variable is not set"
    else Except.ok comments

/-- GET `/api/comments` of `src/server.js` with the blob-backed store:
identical validation, reading through `readCommentsFromBlob` with the
ambient credential. -/
def getCommentsHandlerBlob (token : Option String) (σ : Store)
    (header : Option String) (site : Option String) : Response × Store :=
  match header with
  | none => ((400, .err "Missing X-Student-Number header"), σ)
  | some sn =>
    if sn = "" then ((400, .err "Missing X-Student-Number header"), σ)
    else if !validateStudentNumber sn then
      ((401, .err "Invalid student number format"), σ)
    else match site with
    | none => ((400, .err "Missing site parameter"), σ)
    | some st =>
      if st = "" then ((400, .err "Missing site parameter"), σ)
      else
        let s := sanitizeSiteNameStr st
        if s = "" then ((400, .err "Invalid site parameter"), σ)
        else
          ((200, .list (readCommentsFromBlob token (σ sn s))), σ)

/-! ### Claim theorems: repository sequences (C1, C2, C3, C10) -/

/-- C1: for every key and any prior stored list, the sequence POST A,
POST B, DELETE A (by A's id), GET returns exactly the prior list with B
appended: it contains B, does not contain A (no surviving comment carries
A's id), and is a subsequence of the full insertion-ordered history, so
the relative order of the remaining comments is preserved. -/
theorem postPostDeleteGet_returns_only_B (σ : Store) (sn site : String)
    (tA tB senderA senderB : JSVal) (idA idB tsA tsB : String)
    (hsn : validateStudentNumber sn = true)
    (hsite : sanitizeSiteNameStr site ≠ "")
    (htA : sanitizeText tA ≠ "") (hlA : (sanitizeText tA).length ≤ 280)
    (htB : sanitizeText tB ≠ "") (hlB : (sanitizeText tB).length ≤ 280)
    (hfresh : ∀ c ∈ readCommentsFile σ sn (sanitizeSiteNameStr site),
      c.id ≠ idA)
    (hAB : idB ≠ idA) :
    (getCommentsHandler
        ((deleteCommentHandler
            ((postCommentsHandler
                ((postCommentsHandler σ (some sn) (.str site) tA senderA
                    idA tsA).2)
                (some sn) (.str site) tB senderB idB tsB).2)
            (some sn) (some site) idA).2)
        (some sn) (some site)).1 =
      (200, .list (readCommentsFile σ sn (sanitizeSiteNameStr site) ++
        [⟨idB, sanitizeSiteNameStr site, sanitizeText senderB,
          sanitizeText tB, tsB⟩])) ∧
    (⟨idB, sanitizeSiteNameStr site, sanitizeText senderB,
      sanitizeText tB, tsB⟩ : Comment) ∈
      readCommentsFile σ sn (sanitizeSiteNameStr site) ++
        [⟨idB, sanitizeSiteNameStr site, sanitizeText senderB,
          sanitizeText tB, tsB⟩] ∧
    (⟨idA, sanitizeSiteNameStr site, sanitizeText senderA,
      sanitizeText tA, tsA⟩ : Comment) ∉
      readCommentsFile σ sn (sanitizeSiteNameStr site) ++
        [⟨idB, sanitizeSiteNameStr site, sanitizeText senderB,
          sanitizeText tB, tsB⟩] ∧
    (∀ c ∈ readCommentsFile σ sn (sanitizeSiteNameStr site) ++
        [⟨idB, sanitizeSiteNameStr site, sanitizeText senderB,
          sanitizeText tB, tsB⟩], c.id ≠ idA) ∧
    List.Sublist
      (readCommentsFile σ sn (sanitizeSiteNameStr site) ++
        [⟨idB, sanitizeSiteNameStr site, sanitizeText senderB,
          sanitizeText tB, tsB⟩])
      (readCommentsFile σ sn (sanitizeSiteNameStr site) ++
        [⟨idA, sanitizeSiteNameStr site, sanitizeText senderA,
          sanitizeText tA, tsA⟩,
         ⟨idB, sanitizeSiteNameStr site, sanitizeText senderB,
          sanitizeText tB, tsB⟩]) := by
  have hsite' : sanitizeSiteName (JSVal.str site) ≠ "" := hsite
  set s := sanitizeSiteNameStr site with hs
  set l0 := readCommentsFile σ sn s with hl0
  set A : Comment :=
    ⟨idA, s, sanitizeText senderA, sanitizeText tA, tsA⟩ with hA
  set B : Comment :=
    ⟨idB, s, sanitizeText senderB, sanitizeText tB, tsB⟩ with hB
  have h1 := postCommentsHandler_created σ sn (JSVal.str site) tA senderA
    idA tsA hsn hsite' htA hlA
  rw [sanitizeSiteName_str] at h1
  have h2 := postCommentsHandler_created
    (writeCommentsFile σ sn s (l0 ++ [A])) sn (JSVal.str site) tB senderB
    idB tsB hsn hsite' htB hlB
  rw [sanitizeSiteName_str, readCommentsFile_write_same] at h2
  have hmem : ∃ c ∈ readCommentsFile
      (writeCommentsFile (writeCommentsFile σ sn s (l0 ++ [A])) sn s
        ((l0 ++ [A]) ++ [B])) sn s, c.id = idA := by
    refine ⟨A, ?_, rfl⟩
    rw [readCommentsFile_write_same]
    simp
  have h3 := deleteCommentHandler_found
    (writeCommentsFile (writeCommentsFile σ sn s (l0 ++ [A])) sn s
      ((l0 ++ [A]) ++ [B]))
    sn site idA hsn hsite hmem
  rw [readCommentsFile_write_same] at h3
  have hfilter : ((l0 ++ [A]) ++ [B]).filter (fun c => c.id ≠ idA) =
      l0 ++ [B] := by
    rw [List.filter_append, List.filter_append]
    have hfl0 : l0.filter (fun c => c.id ≠ idA) = l0 :=
      List.filter_eq_self.mpr (by
        intro a ha
        simpa using hfresh a ha)
    have hfA : [A].filter (fun c => c.id ≠ idA) = [] := by
      simp [hA]
    have hfB : [B].filter (fun c => c.id ≠ idA) = [B] := by
      simp [hB, hAB]
    rw [hfl0, hfA, hfB, List.append_nil]
  rw [hfilter] at h3
  have h4 := getCommentsHandler_ok
    (writeCommentsFile
      (writeCommentsFile (writeCommentsFile σ sn s (l0 ++ [A])) sn s
        ((l0 ++ [A]) ++ [B]))
      sn s (l0 ++ [B]))
    sn site hsn hsite
  rw [readCommentsFile_write_same] at h4
  refine ⟨?_, by simp, ?_, ?_, ?_⟩
  · rw [h1]
    simp only []
    rw [h2]
    simp only []
    rw [h3]
    simp only []
    rw [← hs, h4]
  · intro hmemA
    rcases List.mem_append.mp hmemA with hin | hin
    · exact hfresh _ hin rfl
    · have : A = B := by simpa using hin
      exact hAB (congrArg Comment.id this).symm
  · intro c hc
    rcases List.mem_append.mp hc with hin | hin
    · exact hfresh c hin
    · have : c = B := by simpa using hin
      rw [this, hB]
      exact hAB
  · refine List.Sublist.append_left ?_ l0
    exact List.Sublist.cons A (List.Sublist.refl [B])

/-- C2: deleting an id carried by no stored comment answers 404 and
performs no write — the store is returned unchanged. -/
theorem deleteNonexistentId_404_noWrite (σ : Store) (sn site cid : String)
    (hsn : validateStudentNumber sn = true)
    (hsite : sanitizeSiteNameStr site ≠ "")
    (hid : ∀ c ∈ readCommentsFile σ sn (sanitizeSiteNameStr site),
      c.id ≠ cid) :
    deleteCommentHandler σ (some sn) (some site) cid =
      ((404, Body.err "Comment not found"), σ) :=
  deleteCommentHandler_notFound σ sn site cid hsn hsite hid

/-- C3: a key with no stored document reads as the empty list (for the
filesystem store and the blob store alike) and GET answers 200 with an
empty array. -/
theorem absentKeyRead_empty200 (σ : Store) (sn site : String)
    (hsn : validateStudentNumber sn = true)
    (hsite : sanitizeSiteNameStr site ≠ "")
    (habs : σ sn (sanitizeSiteNameStr site) = none) :
    readCommentsFile σ sn (sanitizeSiteNameStr site) = [] ∧
    getCommentsHandler σ (some sn) (some site) =
      ((200, Body.list []), σ) ∧
    (∀ token : Option String, readCommentsFromBlob token none = []) := by
  have hread : readCommentsFile σ sn (sanitizeSiteNameStr site) = [] := by
    simp [readCommentsFile, habs]
  refine ⟨hread, ?_, ?_⟩
  · have h := getCommentsHandler_ok σ sn site hsn hsite
    rw [hread] at h
    exact h
  · intro token
    cases token with
    | none => rfl
    | some t =>
      by_cases ht : t = "" <;>
        simp [readCommentsFromBlob, readBlobAttempt, ht]

/-- C10: DELETE on a key holding no document at all answers 404, performs
no write, and creates no document for that key. -/
theorem deleteAbsentDocument_404_noCreate (σ : Store)
    (sn site cid : String)
    (hsn : validateStudentNumber sn = true)
    (hsite : sanitizeSiteNameStr site ≠ "")
    (habs : σ sn (sanitizeSiteNameStr site) = none) :
    deleteCommentHandler σ (some sn) (some site) cid =
      ((404, Body.err "Comment not found"), σ) ∧
    (deleteCommentHandler σ (some sn) (some site) cid).2 sn
      (sanitizeSiteNameStr site) = none := by
  have hread : readCommentsFile σ sn (sanitizeSiteNameStr site) = [] := by
    simp [readCommentsFile, habs]
  have h := deleteCommentHandler_notFound σ sn site cid hsn hsite (by
    rw [hread]
    simp)
  exact ⟨h, by rw [h]; exact habs⟩

/-- A store with no documents at all. -/
def emptyStore : Store := fun _ _ => none

/-- A store holding a single one-comment document at the key
`("abc123", "home")`. -/
def oneStore : Store := fun sn s =>
  if sn = "abc123" ∧ s = "home" then
    some [⟨"id9", "home", "", "hey", "t0"⟩]
  else none

theorem postPostDeleteGet_returns_only_B_witness :
    validateStudentNumber "abc123" = true ∧
    sanitizeSiteNameStr "home" ≠ "" ∧
    sanitizeText (.str "hello") ≠ "" ∧
    (sanitizeText (.str "hello")).length ≤ 280 ∧
    sanitizeText (.str "world") ≠ "" ∧
    (sanitizeText (.str "world")).length ≤ 280 ∧
    (∀ c ∈ readCommentsFile emptyStore "abc123"
      (sanitizeSiteNameStr "home"), c.id ≠ "id1") ∧
    ("id2" : String) ≠ "id1" ∧
    ((getCommentsHandler
        ((deleteCommentHandler
            ((postCommentsHandler
                ((postCommentsHandler emptyStore (some "abc123")
                    (.str "home") (.str "hello") (JSVal.undef) "id1" "t1").2)
                (some "abc123") (.str "home") (.str "world") (JSVal.undef) "id2"
                "t2").2)
            (some "abc123") (some "home") "id1").2)
        (some "abc123") (some "home")).1 =
      (200, .list (readCommentsFile emptyStore "abc123"
          (sanitizeSiteNameStr "home") ++
        [⟨"id2", sanitizeSiteNameStr "home", sanitizeText .undef,
          sanitizeText (.str "world"), "t2"⟩])) ∧
    (⟨"id2", sanitizeSiteNameStr "home", sanitizeText .undef,
      sanitizeText (.str "world"), "t2"⟩ : Comment) ∈
      readCommentsFile emptyStore "abc123" (sanitizeSiteNameStr "home") ++
        [⟨"id2", sanitizeSiteNameStr "home", sanitizeText .undef,
          sanitizeText (.str "world"), "t2"⟩] ∧
    (⟨"id1", sanitizeSiteNameStr "home", sanitizeText .undef,
      sanitizeText (.str "hello"), "t1"⟩ : Comment) ∉
      readCommentsFile emptyStore "abc123" (sanitizeSiteNameStr "home") ++
        [⟨"id2", sanitizeSiteNameStr "home", sanitizeText .undef,
          sanitizeText (.str "world"), "t2"⟩] ∧
    (∀ c ∈ readCommentsFile emptyStore "abc123"
        (sanitizeSiteNameStr "home") ++
        [⟨"id2", sanitizeSiteNameStr "home", sanitizeText .undef,
          sanitizeText (.str "world"), "t2"⟩], c.id ≠ "id1") ∧
    List.Sublist
      (readCommentsFile emptyStore "abc123"
          (sanitizeSiteNameStr "home") ++
        [⟨"id2", sanitizeSiteNameStr "home", sanitizeText .undef,
          sanitizeText (.str "world"), "t2"⟩])
      (readCommentsFile emptyStore "abc123"
          (sanitizeSiteNameStr "home") ++
        [⟨"id1", sanitizeSiteNameStr "home", sanitizeText .undef,
          sanitizeText (.str "hello"), "t1"⟩,
         ⟨"id2", sanitizeSiteNameStr "home", sanitizeText .undef,
          sanitizeText (.str "world"), "t2"⟩])) :=
  ⟨by decide, by decide, by decide, by decide, by decide, by decide,
   by decide, by decide,
   postPostDeleteGet_returns_only_B emptyStore "abc123" "home"
     (.str "hello") (.str "world") .undef (JSVal.undef) "id1" "id2" "t1" "t2"
     (by decide) (by decide) (by decide) (by decide) (by decide)
     (by decide) (by decide) (by decide)⟩

theorem deleteNonexistentId_404_noWrite_witness :
    validateStudentNumber "abc123" = true ∧
    sanitizeSiteNameStr "home" ≠ "" ∧
    (∀ c ∈ readCommentsFile oneStore "abc123"
      (sanitizeSiteNameStr "home"), c.id ≠ "id1") ∧
    deleteCommentHandler oneStore (some "abc123") (some "home") "id1" =
      ((404, Body.err "Comment not found"), oneStore) :=
  ⟨by decide, by decide, by decide,
   deleteNonexistentId_404_noWrite oneStore "abc123" "home" "id1"
     (by decide) (by decide) (by decide)⟩

theorem absentKeyRead_empty200_witness :
    validateStudentNumber "abc123" = true ∧
    sanitizeSiteNameStr "home" ≠ "" ∧
    emptyStore "abc123" (sanitizeSiteNameStr "home") = none ∧
    (readCommentsFile emptyStore "abc123"
        (sanitizeSiteNameStr "home") = [] ∧
      getCommentsHandler emptyStore (some "abc123") (some "home") =
        ((200, Body.list []), emptyStore) ∧
      (∀ token : Option String, readCommentsFromBlob token none = [])) :=
  ⟨by decide, by decide, rfl,
   absentKeyRead_empty200 emptyStore "abc123" "home" (by decide)
     (by decide) rfl⟩

theorem deleteAbsentDocument_404_noCreate_witness :
    validateStudentNumber "abc123" = true ∧
    sanitizeSiteNameStr "home" ≠ "" ∧
    emptyStore "abc123" (sanitizeSiteNameStr "home") = none ∧
    (deleteCommentHandler emptyStore (some "abc123") (some "home")
        "id1" = ((404, Body.err "Comment not found"), emptyStore) ∧
      (deleteCommentHandler emptyStore (some "abc123") (some "home")
        "id1").2 "abc123" (sanitizeSiteNameStr "home") = none) :=
  ⟨by decide, by decide, rfl,
   deleteAbsentDocument_404_noCreate emptyStore "abc123" "home" "id1"
     (by decide) (by decide) rfl⟩

/-! ### Claim theorems: POST text-length validation (C4) -/

/-- C4 counterexample: a text of raw length 280 (280 spaces) on an
otherwise valid POST yields 400, not the 201 the claim promises for
every length-280 text — the 280-character limit applies to the text
after sanitization, not to the raw text. -/
theorem post_rawLength280_not_201 :
    (String.mk (List.replicate 280 ' ')).length = 280 ∧
    validateStudentNumber "abc123" = true ∧
    sanitizeSiteNameStr "home" ≠ "" ∧
    (postCommentsHandler emptyStore (some "abc123") (.str "home")
        (.str (String.mk (List.replicate 280 ' '))) (JSVal.undef) "id1" "t1").1 =
      (400, Body.err "Text cannot be empty after sanitization") := by
  refine ⟨?_, by decide, by decide, ?_⟩ <;>
    · set_option maxRecDepth 8000 in decide

/-- C4 (amended): on a POST with valid identity, a site sanitizing
non-empty and a present (truthy) text, the handler answers either 400 or
201, and 400 exactly when the sanitized text is empty or longer than 280
characters — so a text whose sanitized form has length 281 yields 400 and
one whose sanitized form has length 280 yields 201. -/
theorem post_textLength_boundary (σ : Store) (sn : String)
    (site text sender : JSVal) (nid nts : String)
    (hsn : validateStudentNumber sn = true)
    (hsite : sanitizeSiteName site ≠ "")
    (htext : text.falsy = false) :
    ((postCommentsHandler σ (some sn) site text sender nid nts).1.1 =
        400 ∨
      (postCommentsHandler σ (some sn) site text sender nid nts).1.1 =
        201) ∧
    ((postCommentsHandler σ (some sn) site text sender nid nts).1.1 =
        400 ↔
      ((sanitizeText text).length = 0 ∨
        280 < (sanitizeText text).length)) := by
  have hsn' : sn ≠ "" := validateStudentNumber_ne_empty hsn
  have hs : site.falsy = false := sanitizeSiteName_falsy hsite
  by_cases h0 : (sanitizeText text).length = 0
  · simp [postCommentsHandler, hsn, hsn', hs, htext, hsite, h0]
  · by_cases h1 : 280 < (sanitizeText text).length
    · simp [postCommentsHandler, hsn, hsn', hs, htext, hsite, h0, h1]
    · simp [postCommentsHandler, hsn, hsn', hs, htext, hsite, h0, h1]

theorem post_textLength_boundary_witness :
    validateStudentNumber "abc123" = true ∧
    sanitizeSiteName (.str "home") ≠ "" ∧
    (JSVal.str "hello").falsy = false ∧
    (((postCommentsHandler emptyStore (some "abc123") (.str "home")
          (.str "hello") (JSVal.undef) "id1" "t1").1.1 = 400 ∨
        (postCommentsHandler emptyStore (some "abc123") (.str "home")
          (.str "hello") (JSVal.undef) "id1" "t1").1.1 = 201) ∧
      ((postCommentsHandler emptyStore (some "abc123") (.str "home")
          (.str "hello") (JSVal.undef) "id1" "t1").1.1 = 400 ↔
        ((sanitizeText (.str "hello")).length = 0 ∨
          280 < (sanitizeText (.str "hello")).length))) :=
  ⟨by decide, by decide, by decide,
   post_textLength_boundary emptyStore "abc123" (.str "home")
     (.str "hello") (JSVal.undef) "id1" "t1" (by decide) (by decide)
     (by decide)⟩

/-! ### Claim theorems: identity-header status codes (C5) -/

/-- C5 counterexample: the empty string fails the pattern
`^[A-Za-z0-9]{3,20}$`, so a request carrying `X-Student-Number` with the
empty value is a present-but-malformed header; yet the list (and create)
handler answers 400, not the 401 the claim promises for every present
malformed header — the JS falsiness check `!studentNumber` treats the
empty value as missing. -/
theorem emptyHeader_malformed_but_400 :
    validateStudentNumber "" = false ∧
    (getCommentsHandler emptyStore (some "") (some "home")).1 =
      (400, Body.err "Missing X-Student-Number header") ∧
    (postCommentsHandler emptyStore (some "") (.str "home")
        (.str "hello") (JSVal.undef) "id1" "t1").1 =
      (400, Body.err "Missing X-Student-Number header") := by
  refine ⟨by decide, by decide, by decide⟩

/-- C5 (amended): on list and create, a missing `X-Student-Number` header
yields 400 and a present non-empty malformed one yields 401 (a present
empty value is treated as missing, hence 400); on delete, a missing
header and any malformed one (empty included) yield 401. -/
theorem identityHeader_statusCodes (σ : Store) (site : Option String)
    (s cid : String) (tx sd st : JSVal)
    (hbad : validateStudentNumber s = false) (hne : s ≠ "") :
    (getCommentsHandler σ none site).1.1 = 400 ∧
    (postCommentsHandler σ none st tx sd cid "t").1.1 = 400 ∧
    (getCommentsHandler σ (some s) site).1.1 = 401 ∧
    (postCommentsHandler σ (some s) st tx sd cid "t").1.1 = 401 ∧
    (deleteCommentHandler σ none site cid).1.1 = 401 ∧
    (deleteCommentHandler σ (some s) site cid).1.1 = 401 ∧
    (deleteCommentHandler σ (some "") site cid).1.1 = 401 := by
  refine ⟨rfl, rfl, ?_, ?_, rfl, ?_, ?_⟩
  · simp [getCommentsHandler, hbad, hne]
  · simp [postCommentsHandler, hbad, hne]
  · simp [deleteCommentHandler, hbad, hne]
  · simp [deleteCommentHandler]

theorem identityHeader_statusCodes_witness :
    validateStudentNumber "a" = false ∧
    ("a" : String) ≠ "" ∧
    ((getCommentsHandler emptyStore none (some "home")).1.1 = 400 ∧
      (postCommentsHandler emptyStore none (.str "home") (.str "hi")
        (JSVal.undef) "id1" "t").1.1 = 400 ∧
      (getCommentsHandler emptyStore (some "a") (some "home")).1.1 =
        401 ∧
      (postCommentsHandler emptyStore (some "a") (.str "home")
        (.str "hi") (JSVal.undef) "id1" "t").1.1 = 401 ∧
      (deleteCommentHandler emptyStore none (some "home") "id1").1.1 =
        401 ∧
      (deleteCommentHandler emptyStore (some "a") (some "home")
        "id1").1.1 = 401 ∧
      (deleteCommentHandler emptyStore (some "") (some "home")
        "id1").1.1 = 401) :=
  ⟨by decide, by decide,
   identityHeader_statusCodes emptyStore (some "home") "a" "id1"
     (.str "hi") .undef (.str "home") (by decide) (by decide)⟩

/-! ### Claim theorems: missing credential handling (C6) -/

/-- C6 failing-input evaluation: with the `BLOB_READ_WRITE_TOKEN`
credential absent, `readCommentsFromBlob` throws inside its own
`try` block but the surrounding `catch` swallows the error and returns
the empty list, so a valid GET on a key that actually holds a comment is
answered 200 with an empty array instead of the 500 the spec requires
("surfaced as an internal error, not silently degraded").  The write
path, by contrast, does propagate the error. -/
theorem missingToken_read_degrades_to_empty :
    readBlobAttempt none
        (some [⟨"id9", "home", "", "hey", "t0"⟩]) =
      Except.error
        "BLOB_READ_WRITE_TOKEN environment variable is not set" ∧
    readCommentsFromBlob none
        (some [⟨"id9", "home", "", "hey", "t0"⟩]) = [] ∧
    (getCommentsHandlerBlob none oneStore (some "abc123")
        (some "home")).1 = (200, Body.list []) ∧
    writeCommentsToBlob none [⟨"id9", "home", "", "hey", "t0"⟩] =
      Except.error
        "BLOB_READ_WRITE_TOKEN environment variable is not set" := by
  refine ⟨rfl, rfl, by decide, rfl⟩

/-! ### Rate limiter (C7) -/

/-- Modelled from the spec: the fixed-window counting engine of the
`express-rate-limit` middleware is library code not present in this
repository; §4.4 of the spec describes it as a fixed window of
`windowMs` milliseconds whose state resets `windowMs` after the window's
first request, with at most `maxRequests` accepted requests per identity
per window.  The configuration (60 s window, max 10, key generator,
message) is taken from the `limiter` definition in the source. -/
structure LimiterEntry where
  key : String
  windowEnd : Nat
  count : Nat
deriving DecidableEq

abbrev LimiterState := List LimiterEntry

/-- `windowMs: 60 * 1000` from the source configuration. -/
def windowMs : Nat := 60 * 1000

/-- `max: 10` from the source configuration. -/
def maxRequests : Nat := 10

/-- `keyGenerator: (req) => req.headers['x-student-number'] || req.ip`
from the source configuration: the client identity is the header value,
falling back to the network origin address when the header is absent (or
empty, by JS falsiness). -/
def keyGenerator (header : Option String) (ip : String) : String :=
  match header with
  | none => ip
  | some s => if s = "" then ip else s

def lookupEntry (k : String) (st : LimiterState) : Option LimiterEntry :=
  st.find? (fun e => e.key = k)

def setEntry (e : LimiterEntry) : LimiterState → LimiterState
  | [] => [e]
  | e2 :: rest =>
    if e2.key = e.key then e :: rest else e2 :: setEntry e rest

/-- Modelled from the spec: one limiter step.  A request at time `now`
under identity `k` starts a fresh window when the identity has none (or
its window has expired), then counts the request; it is accepted exactly
when the window's count stays within `maxRequests`. -/
def rateLimitCheck (now : Nat) (k : String) (st : LimiterState) :
    Bool × LimiterState :=
  match lookupEntry k st with
  | none =>
    (decide (1 ≤ maxRequests), setEntry ⟨k, now + windowMs, 1⟩ st)
  | some e =>
    if e.windowEnd ≤ now then
      (decide (1 ≤ maxRequests), setEntry ⟨k, now + windowMs, 1⟩ st)
    else
      (decide (e.count + 1 ≤ maxRequests),
       setEntry ⟨k, e.windowEnd, e.count + 1⟩ st)

/-- Run a sequence of `/api` requests, each given as
(time, X-Student-Number header, origin address), through the limiter,
returning the accept/reject decisions in order. -/
def processApiRequests :
    List (Nat × Option String × String) → LimiterState →
      List Bool × LimiterState
  | [], st => ([], st)
  | r :: rest, st =>
    let p := rateLimitCheck r.1 (keyGenerator r.2.1 r.2.2) st
    let q := processApiRequests rest p.2
    (p.1 :: q.1, q.2)

/-- `app.use('/api', limiter)`: the limiter runs before any handler; a
rejected request is answered with the configured message and the handler
(and hence the store) is never touched. -/
def ratedRequest (now : Nat) (header : Option String) (ip : String)
    (st : LimiterState) (σ : Store)
    (handle : Store → Response × Store) : (Response × Store) × LimiterState :=
  let p := rateLimitCheck now (keyGenerator header ip) st
  if p.1 then (handle σ, p.2)
  else
    (((429, Body.err
        "Rate limit exceeded. Maximum 10 requests per minute."), σ),
     p.2)

theorem lookupEntry_setEntry_same (e : LimiterEntry) :
    ∀ st : LimiterState, lookupEntry e.key (setEntry e st) = some e := by
  intro st
  induction st with
  | nil => simp [setEntry, lookupEntry, List.find?]
  | cons e2 rest ih =>
    by_cases h : e2.key = e.key
    · simp [setEntry, h, lookupEntry, List.find?]
    · simp only [setEntry, if_neg h]
      simp only [lookupEntry, List.find?] at ih ⊢
      simp [h, ih]

/-- Invariant run: while the identity's window is open and the count
stays within the maximum, every request is accepted and the count grows
by one per request. -/
theorem processApiRequests_inWindow (k : String) (w : Nat) :
    ∀ (reqs : List (Nat × Option String × String)) (st : LimiterState)
      (c : Nat),
      (∀ r ∈ reqs, keyGenerator r.2.1 r.2.2 = k) →
      (∀ r ∈ reqs, r.1 < w) →
      lookupEntry k st = some ⟨k, w, c⟩ →
      c + reqs.length ≤ maxRequests →
      (processApiRequests reqs st).1 =
        List.replicate reqs.length true ∧
      lookupEntry k (processApiRequests reqs st).2 =
        some ⟨k, w, c + reqs.length⟩ := by
  intro reqs
  induction reqs with
  | nil =>
    intro st c _ _ hlook _
    exact ⟨rfl, by simpa using hlook⟩
  | cons r rest ih =>
    intro st c hk hw hlook hc
    have hkr : keyGenerator r.2.1 r.2.2 = k := hk r (by simp)
    have hwr : r.1 < w := hw r (by simp)
    have hc2 : c + (rest.length + 1) ≤ maxRequests := by
      simpa using hc
    have hcount : c + 1 ≤ maxRequests := by omega
    simp only [processApiRequests, hkr, rateLimitCheck, hlook,
      if_neg (Nat.not_le.mpr hwr)]
    have hset := lookupEntry_setEntry_same ⟨k, w, c + 1⟩ st
    have hrest := ih (setEntry ⟨k, w, c + 1⟩ st) (c + 1)
      (fun r2 h2 => hk r2 (by simp [h2]))
      (fun r2 h2 => hw r2 (by simp [h2]))
      hset
      (by omega)
    refine ⟨?_, ?_⟩
    · simp only [List.length_cons, List.replicate_succ]
      rw [hrest.1]
      simp [hcount]
    · rw [hrest.2]
      simp only [List.length_cons]
      have harith : c + 1 + rest.length = c + (rest.length + 1) := by
        omega
      rw [harith]

theorem processApiRequests_append
    (xs ys : List (Nat × Option String × String)) :
    ∀ st : LimiterState,
      processApiRequests (xs ++ ys) st =
        ((processApiRequests xs st).1 ++
          (processApiRequests ys (processApiRequests xs st).2).1,
         (processApiRequests ys (processApiRequests xs st).2).2) := by
  induction xs with
  | nil => intro st; simp [processApiRequests]
  | cons x xs ih =>
    intro st
    simp only [List.cons_append, processApiRequests, List.append_eq, ih,
      List.nil_append]

/-- Once the window's count has reached the maximum, every further
request inside the window is rejected — the limiter also counts rejected
requests, so the count only grows and never re-admits. -/
theorem processApiRequests_overLimit (k : String) (w : Nat) :
    ∀ (reqs : List (Nat × Option String × String)) (st : LimiterState)
      (c : Nat),
      (∀ r ∈ reqs, keyGenerator r.2.1 r.2.2 = k) →
      (∀ r ∈ reqs, r.1 < w) →
      lookupEntry k st = some ⟨k, w, c⟩ →
      maxRequests ≤ c →
      (processApiRequests reqs st).1 =
        List.replicate reqs.length false ∧
      lookupEntry k (processApiRequests reqs st).2 =
        some ⟨k, w, c + reqs.length⟩ := by
  intro reqs
  induction reqs with
  | nil =>
    intro st c _ _ hlook _
    exact ⟨rfl, by simpa using hlook⟩
  | cons r rest ih =>
    intro st c hk hw hlook hc
    have hkr : keyGenerator r.2.1 r.2.2 = k := hk r (by simp)
    have hwr : r.1 < w := hw r (by simp)
    have hdec : decide (c + 1 ≤ maxRequests) = false := by
      simp only [decide_eq_false_iff_not, Nat.not_le]
      omega
    simp only [processApiRequests, hkr, rateLimitCheck, hlook,
      if_neg (Nat.not_le.mpr hwr)]
    have hset := lookupEntry_setEntry_same ⟨k, w, c + 1⟩ st
    have hrest := ih (setEntry ⟨k, w, c + 1⟩ st) (c + 1)
      (fun r2 h2 => hk r2 (by simp [h2]))
      (fun r2 h2 => hw r2 (by simp [h2]))
      hset
      (by omega)
    refine ⟨?_, ?_⟩
    · simp only [List.length_cons, List.replicate_succ]
      rw [hrest.1]
      simp [hdec]
    · rw [hrest.2]
      simp only [List.length_cons]
      have harith : c + 1 + rest.length = c + (rest.length + 1) := by
        omega
      rw [harith]

/-- C7: under any identity key (the `X-Student-Number` value, or the
origin address as fallback), any run of at least eleven requests all
mapping to that key and all within `windowMs` of the first one — on a
limiter state with no open window for the key — sees the first ten
accepted and the eleventh and every subsequent request in the window
rejected; and a rejected request is answered with the configured
rate-limit error and the store untouched, before any handler runs. -/
theorem rateLimiter_tenPerWindow (st : LimiterState) (k : String)
    (r0 : Nat × Option String × String)
    (rest : List (Nat × Option String × String))
    (now2 : Nat) (header2 : Option String) (ip2 : String)
    (st2 : LimiterState) (σ : Store) (handle : Store → Response × Store)
    (hk : ∀ r ∈ r0 :: rest, keyGenerator r.2.1 r.2.2 = k)
    (hnone : lookupEntry k st = none)
    (hlen : 10 ≤ rest.length)
    (hwin : ∀ r ∈ r0 :: rest, r.1 < r0.1 + windowMs)
    (hrej : (rateLimitCheck now2 (keyGenerator header2 ip2) st2).1 =
      false) :
    (processApiRequests (r0 :: rest) st).1 =
      List.replicate 10 true ++
        List.replicate (rest.length - 9) false ∧
    1 ≤ rest.length - 9 ∧
    ratedRequest now2 header2 ip2 st2 σ handle =
      (((429, Body.err
          "Rate limit exceeded. Maximum 10 requests per minute."), σ),
       (rateLimitCheck now2 (keyGenerator header2 ip2) st2).2) := by
  refine ⟨?_, by omega, ?_⟩
  · have hk0 : keyGenerator r0.2.1 r0.2.2 = k := hk r0 (by simp)
    have htd : rest.take 9 ++ rest.drop 9 = rest :=
      List.take_append_drop 9 rest
    have ht9len : (rest.take 9).length = 9 := by
      rw [List.length_take]
      omega
    have hd9len : (rest.drop 9).length = rest.length - 9 :=
      List.length_drop 9 rest
    have hmem_t9 : ∀ r ∈ rest.take 9, r ∈ r0 :: rest := fun r hr =>
      List.mem_cons_of_mem _ (List.take_subset 9 rest hr)
    have hmem_d9 : ∀ r ∈ rest.drop 9, r ∈ r0 :: rest := fun r hr =>
      List.mem_cons_of_mem _ (List.drop_subset 9 rest hr)
    have hw1 : lookupEntry k
        (setEntry ⟨k, r0.1 + windowMs, 1⟩ st) =
        some ⟨k, r0.1 + windowMs, 1⟩ :=
      lookupEntry_setEntry_same ⟨k, r0.1 + windowMs, 1⟩ st
    have hinv := processApiRequests_inWindow k (r0.1 + windowMs)
      (rest.take 9) (setEntry ⟨k, r0.1 + windowMs, 1⟩ st) 1
      (fun r hr => hk r (hmem_t9 r hr))
      (fun r hr => hwin r (hmem_t9 r hr))
      hw1
      (by rw [ht9len]; decide)
    have hlookM : lookupEntry k
        (processApiRequests (rest.take 9)
          (setEntry ⟨k, r0.1 + windowMs, 1⟩ st)).2 =
        some ⟨k, r0.1 + windowMs, 10⟩ := by
      have h2 := hinv.2
      rw [ht9len] at h2
      exact h2
    have hover := processApiRequests_overLimit k (r0.1 + windowMs)
      (rest.drop 9)
      (processApiRequests (rest.take 9)
        (setEntry ⟨k, r0.1 + windowMs, 1⟩ st)).2 10
      (fun r hr => hk r (hmem_d9 r hr))
      (fun r hr => hwin r (hmem_d9 r hr))
      hlookM
      (by decide)
    have hstep1 : (processApiRequests (r0 :: rest) st).1 =
        decide (1 ≤ maxRequests) ::
          (processApiRequests rest
            (setEntry ⟨k, r0.1 + windowMs, 1⟩ st)).1 := by
      simp only [processApiRequests, hk0, rateLimitCheck, hnone]
    have hrest1 : (processApiRequests rest
        (setEntry ⟨k, r0.1 + windowMs, 1⟩ st)).1 =
        List.replicate 9 true ++
          List.replicate (rest.length - 9) false := by
      conv_lhs => rw [← htd]
      rw [processApiRequests_append]
      have hmid1 := hinv.1
      rw [ht9len] at hmid1
      have hd1 := hover.1
      rw [hd9len] at hd1
      rw [hmid1, hd1]
    rw [hstep1, hrest1]
    have h1le : decide (1 ≤ maxRequests) = true := by decide
    rw [h1le]
    simp [List.replicate_succ]
  · simp [ratedRequest, hrej]

theorem rateLimiter_tenPerWindow_witness :
    (∀ r ∈ ((0, some "abc123", "ip0") :: List.replicate 12
        ((1 : Nat), some "abc123", "ipX")), keyGenerator r.2.1 r.2.2 =
        "abc123") ∧
    lookupEntry "abc123" ([] : LimiterState) = none ∧
    10 ≤ (List.replicate 12
      ((1 : Nat), some "abc123", "ipX")).length ∧
    (∀ r ∈ ((0, some "abc123", "ip0") :: List.replicate 12
        ((1 : Nat), some "abc123", "ipX")),
      r.1 < (0, some "abc123", "ip0").1 + windowMs) ∧
    (rateLimitCheck 5 (keyGenerator (some "abc123") "ip")
      [⟨"abc123", 60000, 10⟩]).1 = false ∧
    ((processApiRequests ((0, some "abc123", "ip0") :: List.replicate 12
        ((1 : Nat), some "abc123", "ipX")) []).1 =
      List.replicate 10 true ++
        List.replicate ((List.replicate 12
          ((1 : Nat), some "abc123", "ipX")).length - 9) false ∧
    1 ≤ (List.replicate 12
      ((1 : Nat), some "abc123", "ipX")).length - 9 ∧
    ratedRequest 5 (some "abc123") "ip" [⟨"abc123", 60000, 10⟩]
        emptyStore (fun σ2 => ((200, Body.list []), σ2)) =
      (((429, Body.err
          "Rate limit exceeded. Maximum 10 requests per minute."),
        emptyStore),
       (rateLimitCheck 5 (keyGenerator (some "abc123") "ip")
        [⟨"abc123", 60000, 10⟩]).2)) :=
  ⟨by decide, by decide, by decide, by decide, by decide,
   rateLimiter_tenPerWindow [] "abc123" (0, some "abc123", "ip0")
     (List.replicate 12 ((1 : Nat), some "abc123", "ipX")) 5
     (some "abc123") "ip" [⟨"abc123", 60000, 10⟩] emptyStore
     (fun σ2 => ((200, Body.list []), σ2))
     (by decide) (by decide) (by decide) (by decide) (by decide)⟩


/-! ### The HTML-tag pattern `<[^>]*>` (C8, C9) -/

/-- Whether a character list still contains a substring matching the tag
pattern `<[^>]*>`: a `<` with some `>` after it (the shortest such span
is a match of the pattern). -/
def hasTagMatch : List Char → Bool
  | [] => false
  | c :: rest => (c = '<' && rest.contains '>') || hasTagMatch rest

theorem splitAfterGt_eq_none {cs : List Char} :
    splitAfterGt cs = none ↔ '>' ∉ cs := by
  induction cs with
  | nil => simp [splitAfterGt]
  | cons c rest ih =>
    by_cases hc : c = '>'
    · simp [splitAfterGt, hc]
    · simp [splitAfterGt, hc, ih, Ne.symm hc]

theorem splitAfterGt_mem {cs rest : List Char}
    (h : splitAfterGt cs = some rest) : ∀ c ∈ rest, c ∈ cs := by
  induction cs with
  | nil => simp [splitAfterGt] at h
  | cons c0 cs ih =>
    intro c hc
    simp only [splitAfterGt] at h
    by_cases h0 : c0 = '>'
    · rw [if_pos h0] at h
      obtain rfl := Option.some.inj h
      exact List.mem_cons_of_mem _ hc
    · simp only [if_neg h0] at h
      exact List.mem_cons_of_mem _ (ih h c hc)

theorem hasTagMatch_of_no_gt {cs : List Char} (h : '>' ∉ cs) :
    hasTagMatch cs = false := by
  induction cs with
  | nil => rfl
  | cons c rest ih =>
    have hr : '>' ∉ rest := fun hm => h (List.mem_cons_of_mem _ hm)
    have hcontains : rest.contains '>' = false := by
      simpa using hr
    simp only [hasTagMatch, hcontains, Bool.and_false, Bool.false_or]
    exact ih hr

/-- Every character of `stripTags cs` occurs in `cs` (the replacement
only deletes). -/
theorem stripTags_subset :
    ∀ (n : Nat) (cs : List Char), cs.length ≤ n →
      ∀ c ∈ stripTags cs, c ∈ cs := by
  intro n
  induction n with
  | zero =>
    intro cs h
    have : cs = [] := List.length_eq_zero.mp (Nat.le_zero.mp h)
    subst this
    simp [stripTags_nil]
  | succ n ih =>
    intro cs h c hc
    cases cs with
    | nil => simp [stripTags_nil] at hc
    | cons c0 rest =>
      have hr : rest.length ≤ n := by simpa using h
      by_cases h0 : c0 = '<'
      · subst h0
        cases hsp : splitAfterGt rest with
        | some rest2 =>
          rw [stripTags_cons_lt_some hsp] at hc
          have h2 : rest2.length ≤ n :=
            Nat.le_of_lt (Nat.lt_of_lt_of_le (splitAfterGt_length hsp) hr)
          exact List.mem_cons_of_mem _
            (splitAfterGt_mem hsp c (ih rest2 h2 c hc))
        | none =>
          rw [stripTags_cons_lt_none hsp] at hc
          rcases List.mem_cons.mp hc with h1 | h1
          · simp [h1]
          · exact List.mem_cons_of_mem _ (ih rest hr c h1)
      · rw [stripTags_cons_of_ne rest h0] at hc
        rcases List.mem_cons.mp hc with h1 | h1
        · simp [h1]
        · exact List.mem_cons_of_mem _ (ih rest hr c h1)

/-- The output of `stripTags` contains no remaining tag match. -/
theorem hasTagMatch_stripTags :
    ∀ (n : Nat) (cs : List Char), cs.length ≤ n →
      hasTagMatch (stripTags cs) = false := by
  intro n
  induction n with
  | zero =>
    intro cs h
    have : cs = [] := List.length_eq_zero.mp (Nat.le_zero.mp h)
    subst this
    rfl
  | succ n ih =>
    intro cs h
    cases cs with
    | nil => rfl
    | cons c0 rest =>
      have hr : rest.length ≤ n := by simpa using h
      by_cases h0 : c0 = '<'
      · subst h0
        cases hsp : splitAfterGt rest with
        | some rest2 =>
          rw [stripTags_cons_lt_some hsp]
          exact ih rest2 (Nat.le_of_lt
            (Nat.lt_of_lt_of_le (splitAfterGt_length hsp) hr))
        | none =>
          rw [stripTags_cons_lt_none hsp]
          have hng : '>' ∉ rest := splitAfterGt_eq_none.mp hsp
          have hng2 : '>' ∉ stripTags rest := fun hm =>
            hng (stripTags_subset rest.length rest (Nat.le_refl _) _ hm)
          have hcontains : (stripTags rest).contains '>' = false := by
            simpa using hng2
          simp only [hasTagMatch, hcontains, Bool.and_false,
            Bool.false_or]
          exact ih rest hr
      · rw [stripTags_cons_of_ne rest h0]
        simp [hasTagMatch, h0, ih rest hr]

/-- On a list without any tag match, `stripTags` is the identity. -/
theorem stripTags_of_no_match :
    ∀ cs : List Char, hasTagMatch cs = false → stripTags cs = cs := by
  intro cs
  induction cs with
  | nil => intro _; rfl
  | cons c0 rest ih =>
    intro h
    simp only [hasTagMatch, Bool.or_eq_false_iff,
      Bool.and_eq_false_iff] at h
    by_cases h0 : c0 = '<'
    · cases hsp : splitAfterGt rest with
      | some rest2 =>
        exfalso
        have hgt : '>' ∈ rest := by
          by_contra hng
          rw [splitAfterGt_eq_none.mpr hng] at hsp
          exact Option.noConfusion hsp
        rcases h.1 with h1 | h1
        · simp [h0] at h1
        · have h2 : rest.contains '>' = true := by simpa using hgt
          rw [h1] at h2
          exact Bool.noConfusion h2
      | none =>
        subst h0
        rw [stripTags_cons_lt_none hsp, ih h.2]
    · rw [stripTags_cons_of_ne rest h0, ih h.2]

/-! ### Trimming preserves tag-freeness, and trimming is idempotent -/

theorem hasTagMatch_iff {cs : List Char} :
    hasTagMatch cs = true ↔
      ∃ l1 l2, cs = l1 ++ '<' :: l2 ∧ '>' ∈ l2 := by
  induction cs with
  | nil =>
    simp [hasTagMatch]
  | cons c rest ih =>
    constructor
    · intro h
      simp only [hasTagMatch, Bool.or_eq_true, Bool.and_eq_true] at h
      rcases h with ⟨hc, hcont⟩ | h
      · refine ⟨[], rest, ?_, ?_⟩
        · simp [of_decide_eq_true hc]
        · simpa using hcont
      · obtain ⟨l1, l2, heq, hgt⟩ := ih.mp h
        exact ⟨c :: l1, l2, by simp [heq], hgt⟩
    · rintro ⟨l1, l2, heq, hgt⟩
      cases l1 with
      | nil =>
        simp only [List.nil_append, List.cons.injEq] at heq
        simp only [hasTagMatch, Bool.or_eq_true, Bool.and_eq_true]
        exact Or.inl ⟨by simp [heq.1], by
          rw [heq.2]; simpa using hgt⟩
      | cons a l1 =>
        simp only [List.cons_append, List.cons.injEq] at heq
        simp only [hasTagMatch, Bool.or_eq_true]
        exact Or.inr (ih.mpr ⟨l1, l2, heq.2, hgt⟩)

/-- A tag-free list has tag-free infixes. -/
theorem hasTagMatch_infix {p x s : List Char}
    (h : hasTagMatch (p ++ x ++ s) = false) : hasTagMatch x = false := by
  by_contra hx
  have hx2 : hasTagMatch x = true := by
    cases hm : hasTagMatch x
    · exact absurd hm hx
    · rfl
  obtain ⟨l1, l2, heq, hgt⟩ := hasTagMatch_iff.mp hx2
  have h2 : hasTagMatch (p ++ x ++ s) = true := by
    refine hasTagMatch_iff.mpr ⟨p ++ l1, l2 ++ s, ?_, ?_⟩
    · simp [heq]
    · simp [hgt]
  rw [h2] at h
  exact Bool.noConfusion h

/-- `jsTrimEnd l` is a prefix of `l`. -/
theorem jsTrimEnd_prefix (l : List Char) :
    ∃ s, l = jsTrimEnd l ++ s := by
  refine ⟨(l.reverse.takeWhile jsWhitespace).reverse, ?_⟩
  conv_lhs => rw [← List.reverse_reverse l]
  conv_lhs =>
    rw [← List.takeWhile_append_dropWhile jsWhitespace l.reverse]
  rw [List.reverse_append]
  rfl

/-- `jsTrim cs` is an infix of `cs`. -/
theorem jsTrim_infix (cs : List Char) :
    ∃ p s, cs = p ++ jsTrim cs ++ s := by
  obtain ⟨s, hs⟩ := jsTrimEnd_prefix (cs.dropWhile jsWhitespace)
  refine ⟨cs.takeWhile jsWhitespace, s, ?_⟩
  conv_lhs =>
    rw [← List.takeWhile_append_dropWhile jsWhitespace cs]
  rw [hs]
  simp [jsTrim]

theorem hasTagMatch_jsTrim {cs : List Char}
    (h : hasTagMatch cs = false) : hasTagMatch (jsTrim cs) = false := by
  obtain ⟨p, s, heq⟩ := jsTrim_infix cs
  rw [heq] at h
  exact hasTagMatch_infix h

theorem dropWhile_head_false {q : Char → Bool} :
    ∀ {l : List Char} {a : Char} {t : List Char},
      List.dropWhile q l = a :: t → q a = false := by
  intro l
  induction l with
  | nil => intro a t h; exact absurd h (by simp)
  | cons c l ih =>
    intro a t h
    by_cases hc : q c
    · rw [List.dropWhile_cons_of_pos hc] at h
      exact ih h
    · rw [List.dropWhile_cons_of_neg hc] at h
      have hca : c = a := (List.cons.inj h).1
      subst hca
      simpa using hc

theorem dropWhile_dropWhile (q : Char → Bool) (l : List Char) :
    (l.dropWhile q).dropWhile q = l.dropWhile q := by
  cases hm : l.dropWhile q with
  | nil => rfl
  | cons a t =>
    rw [List.dropWhile_cons_of_neg]
    simp [dropWhile_head_false hm]

theorem jsTrimEnd_idem (l : List Char) :
    jsTrimEnd (jsTrimEnd l) = jsTrimEnd l := by
  simp only [jsTrimEnd, List.reverse_reverse]
  rw [dropWhile_dropWhile]

theorem jsTrim_idem (cs : List Char) : jsTrim (jsTrim cs) = jsTrim cs := by
  simp only [jsTrim]
  have hm : (cs.dropWhile jsWhitespace).dropWhile jsWhitespace =
      cs.dropWhile jsWhitespace := dropWhile_dropWhile _ _
  have hA : (jsTrimEnd (cs.dropWhile jsWhitespace)).dropWhile
      jsWhitespace = jsTrimEnd (cs.dropWhile jsWhitespace) := by
    cases h2 : jsTrimEnd (cs.dropWhile jsWhitespace) with
    | nil => rfl
    | cons a t =>
      obtain ⟨s, hs⟩ := jsTrimEnd_prefix (cs.dropWhile jsWhitespace)
      rw [h2] at hs
      have hqa : jsWhitespace a = false := by
        have hdw : (cs.dropWhile jsWhitespace).dropWhile jsWhitespace =
            a :: (t ++ s) := by
          rw [hm, hs]
          simp
        exact dropWhile_head_false hdw
      rw [List.dropWhile_cons_of_neg (by simp [hqa])]
  rw [hA, jsTrimEnd_idem]

/-- C9: `sanitizeText` is idempotent — sanitizing its own output changes
nothing — and its output never contains a substring matching the tag
pattern `<[^>]*>` (any surviving `<` has no `>` after it). -/
theorem sanitizeText_idempotent_tagFree (v : JSVal) :
    sanitizeText (.str (sanitizeText v)) = sanitizeText v ∧
    hasTagMatch (sanitizeText v).data = false := by
  cases v with
  | str s =>
    have hnm : hasTagMatch (stripTags s.data) = false :=
      hasTagMatch_stripTags s.data.length s.data (Nat.le_refl _)
    have hnmu : hasTagMatch (jsTrim (stripTags s.data)) = false :=
      hasTagMatch_jsTrim hnm
    constructor
    · show String.mk
        (jsTrim (stripTags (jsTrim (stripTags s.data)))) =
        String.mk (jsTrim (stripTags s.data))
      rw [stripTags_of_no_match _ hnmu, jsTrim_idem]
    · exact hnmu
  | num n => exact ⟨rfl, rfl⟩
  | boolv b => exact ⟨rfl, rfl⟩
  | nullv => exact ⟨rfl, rfl⟩
  | undef => exact ⟨rfl, rfl⟩

/-! ### Spec-side tag removal (C8) -/

/-- Locate the leftmost substring of `cs` matching the tag pattern
`<[^>]*>` (an opening angle bracket, content without a closing bracket,
a closing bracket): returns the part before the match and the part after
it.  `none` when no substring of `cs` matches. -/
def firstTagSplit : List Char → Option (List Char × List Char)
  | [] => none
  | c :: rest =>
    if c = '<' then
      match splitAfterGt rest with
      | some rest2 => some ([], rest2)
      | none => none
    else
      match firstTagSplit rest with
      | some ps => some (c :: ps.1, ps.2)
      | none => none

theorem splitAfterGt_decomp :
    ∀ {cs rest : List Char}, splitAfterGt cs = some rest →
      ∃ mid, '>' ∉ mid ∧ cs = mid ++ '>' :: rest := by
  intro cs
  induction cs with
  | nil => intro rest h; exact absurd h (by simp [splitAfterGt])
  | cons c cs ih =>
    intro rest h
    by_cases hc : c = '>'
    · rw [splitAfterGt, if_pos hc] at h
      obtain rfl := Option.some.inj h
      exact ⟨[], by simp, by simp [hc]⟩
    · rw [splitAfterGt, if_neg hc] at h
      obtain ⟨mid, hmid, heq⟩ := ih h
      exact ⟨c :: mid, by simp [hmid, Ne.symm hc], by simp [heq]⟩

/-- Soundness of `firstTagSplit`: a `some (p, s)` result decomposes the
input as `p ++ '<' :: mid ++ '>' :: s` with no `<` in `p` and no `>` in
`mid` — `p` precedes the leftmost match and `s` follows it. -/
theorem firstTagSplit_spec :
    ∀ {cs p s : List Char}, firstTagSplit cs = some (p, s) →
      (∀ c ∈ p, c ≠ '<') ∧
      ∃ mid, '>' ∉ mid ∧ cs = p ++ '<' :: (mid ++ '>' :: s) := by
  intro cs
  induction cs with
  | nil => intro p s h; exact absurd h (by simp [firstTagSplit])
  | cons c rest ih =>
    intro p s h
    by_cases hc : c = '<'
    · rw [firstTagSplit, if_pos hc] at h
      cases hsp : splitAfterGt rest with
      | none => rw [hsp] at h; exact absurd h (by simp)
      | some rest2 =>
        rw [hsp] at h
        obtain ⟨hp, hs⟩ := Prod.mk.inj (Option.some.inj h)
        obtain ⟨mid, hmid, heq⟩ := splitAfterGt_decomp hsp
        subst hs
        refine ⟨by simp [← hp], mid, hmid, ?_⟩
        simp [← hp, hc, heq]
    · rw [firstTagSplit, if_neg hc] at h
      cases hft : firstTagSplit rest with
      | none => rw [hft] at h; exact absurd h (by simp)
      | some ps =>
        rw [hft] at h
        obtain ⟨hp, hs⟩ := Prod.mk.inj (Option.some.inj h)
        obtain ⟨hp2, mid, hmid, heq⟩ := ih hft
        subst hs
        refine ⟨?_, mid, hmid, ?_⟩
        · intro c2 hc2
          rw [← hp] at hc2
          rcases List.mem_cons.mp hc2 with h2 | h2
          · rw [h2]; exact hc
          · exact hp2 c2 h2
        · simp [← hp, heq]

theorem firstTagSplit_length {cs p s : List Char}
    (h : firstTagSplit cs = some (p, s)) :
    p.length + s.length + 2 ≤ cs.length := by
  obtain ⟨_, mid, _, heq⟩ := firstTagSplit_spec h
  have := congrArg List.length heq
  simp only [List.length_append, List.length_cons] at this
  omega

/-- Fuel-indexed worker for `specRemoveTags`. -/
def specRemoveTagsF : Nat → List Char → List Char
  | 0, cs => cs
  | fuel + 1, cs =>
    match firstTagSplit cs with
    | none => cs
    | some ps => specRemoveTagsF fuel (ps.1 ++ ps.2)

/-- Modelled from the spec's description of `sanitizeText` ("removes
substrings matching an HTML-tag pattern"): repeatedly delete the
leftmost substring matching `<[^>]*>` until none remains.  Defined
independently of `stripTags` to compare the spec's reading with the
code's regex replacement. -/
def specRemoveTags (cs : List Char) : List Char :=
  specRemoveTagsF cs.length cs

theorem specRemoveTagsF_irrel :
    ∀ (fuel fuel' : Nat) (cs : List Char), cs.length ≤ fuel →
      cs.length ≤ fuel' →
      specRemoveTagsF fuel cs = specRemoveTagsF fuel' cs := by
  intro fuel
  induction fuel with
  | zero =>
    intro fuel' cs h _
    have hnil : cs = [] := List.length_eq_zero.mp (Nat.le_zero.mp h)
    subst hnil
    cases fuel' with
    | zero => rfl
    | succ fuel' => simp [specRemoveTagsF, firstTagSplit]
  | succ fuel ih =>
    intro fuel' cs h h'
    cases fuel' with
    | zero =>
      have hnil : cs = [] := List.length_eq_zero.mp (Nat.le_zero.mp h')
      subst hnil
      simp [specRemoveTagsF, firstTagSplit]
    | succ fuel' =>
      simp only [specRemoveTagsF]
      cases hft : firstTagSplit cs with
      | none => rfl
      | some ps =>
        have hlen : ps.1.length + ps.2.length + 2 ≤ cs.length :=
          firstTagSplit_length (by rw [hft])
        have h1 : (ps.1 ++ ps.2).length ≤ fuel := by
          simp only [List.length_append]
          omega
        have h2 : (ps.1 ++ ps.2).length ≤ fuel' := by
          simp only [List.length_append]
          omega
        exact ih fuel' (ps.1 ++ ps.2) h1 h2

theorem specRemoveTags_of_none {cs : List Char}
    (h : firstTagSplit cs = none) : specRemoveTags cs = cs := by
  cases cs with
  | nil => rfl
  | cons c rest =>
    simp only [specRemoveTags, List.length_cons, specRemoveTagsF, h]

theorem specRemoveTags_of_some {cs p s : List Char}
    (h : firstTagSplit cs = some (p, s)) :
    specRemoveTags cs = specRemoveTags (p ++ s) := by
  cases cs with
  | nil => exact absurd h (by simp [firstTagSplit])
  | cons c rest =>
    have hlen : p.length + s.length + 2 ≤ (c :: rest).length :=
      firstTagSplit_length h
    simp only [specRemoveTags, List.length_cons, specRemoveTagsF, h]
    refine specRemoveTagsF_irrel rest.length (p ++ s).length (p ++ s)
      ?_ (Nat.le_refl _)
    simp only [List.length_append]
    simp only [List.length_cons] at hlen
    omega

theorem stripTags_append_no_lt :
    ∀ {p : List Char}, (∀ c ∈ p, c ≠ '<') → ∀ xs : List Char,
      stripTags (p ++ xs) = p ++ stripTags xs := by
  intro p
  induction p with
  | nil => intro _ xs; rfl
  | cons c p ih =>
    intro hp xs
    have hc : c ≠ '<' := hp c (by simp)
    rw [List.cons_append, stripTags_cons_of_ne _ hc,
      ih (fun c2 h2 => hp c2 (List.mem_cons_of_mem _ h2)) xs,
      List.cons_append]

theorem splitAfterGt_append :
    ∀ {mid : List Char}, '>' ∉ mid → ∀ s : List Char,
      splitAfterGt (mid ++ '>' :: s) = some s := by
  intro mid
  induction mid with
  | nil => intro _ s; simp [splitAfterGt]
  | cons c mid ih =>
    intro hm s
    have hc : c ≠ '>' := by
      intro hc
      exact hm (by simp [hc])
    rw [List.cons_append, splitAfterGt, if_neg hc,
      ih (fun h2 => hm (List.mem_cons_of_mem _ h2)) s]

theorem firstTagSplit_none_no_match :
    ∀ {cs : List Char}, firstTagSplit cs = none →
      hasTagMatch cs = false := by
  intro cs
  induction cs with
  | nil => intro _; rfl
  | cons c rest ih =>
    intro h
    by_cases hc : c = '<'
    · rw [firstTagSplit, if_pos hc] at h
      cases hsp : splitAfterGt rest with
      | some rest2 => rw [hsp] at h; exact absurd h (by simp)
      | none =>
        have hng : '>' ∉ rest := splitAfterGt_eq_none.mp hsp
        have hcontains : rest.contains '>' = false := by simpa using hng
        simp only [hasTagMatch, hcontains, Bool.and_false,
          Bool.false_or]
        exact hasTagMatch_of_no_gt hng
    · rw [firstTagSplit, if_neg hc] at h
      cases hft : firstTagSplit rest with
      | some ps => rw [hft] at h; exact absurd h (by simp)
      | none => simp [hasTagMatch, hc, ih hft]

/-- The spec's reading of the sanitizer (repeatedly delete the leftmost
match of `<[^>]*>`) agrees with the regex engine's single left-to-right
global replacement. -/
theorem specRemoveTags_eq_stripTags :
    ∀ (n : Nat) (cs : List Char), cs.length ≤ n →
      specRemoveTags cs = stripTags cs := by
  intro n
  induction n with
  | zero =>
    intro cs h
    have hnil : cs = [] := List.length_eq_zero.mp (Nat.le_zero.mp h)
    subst hnil
    rfl
  | succ n ih =>
    intro cs h
    cases hft : firstTagSplit cs with
    | none =>
      rw [specRemoveTags_of_none hft,
        stripTags_of_no_match cs (firstTagSplit_none_no_match hft)]
    | some ps =>
      obtain ⟨hp, mid, hmid, heq⟩ := firstTagSplit_spec (p := ps.1)
        (s := ps.2) (by rw [hft])
      have hlen : ps.1.length + ps.2.length + 2 ≤ cs.length :=
        firstTagSplit_length (by rw [hft])
      have hlen2 : (ps.1 ++ ps.2).length ≤ n := by
        simp only [List.length_append]
        omega
      rw [specRemoveTags_of_some (by rw [hft]), ih _ hlen2,
        stripTags_append_no_lt hp]
      conv_rhs => rw [heq]
      rw [stripTags_append_no_lt hp,
        stripTags_cons_lt_some (splitAfterGt_append hmid ps.2)]

/-- The spec's description of `sanitizeText`: remove every substring
matching the HTML-tag pattern, then trim; non-string input yields the
empty string. -/
def specSanitizeText : JSVal → String
  | .str s => String.mk (jsTrim (specRemoveTags s.data))
  | _ => ""

/-- C8: `sanitizeText` agrees with the spec's description on every input
— tag removal followed by trimming for strings, the empty string for
every non-string — and in particular maps `"<b>hi</b>"` and `"  hi  "`
to `"hi"`. -/
theorem sanitizeText_matches_spec :
    (∀ v : JSVal, sanitizeText v = specSanitizeText v) ∧
    sanitizeText (.str "<b>hi</b>") = "hi" ∧
    sanitizeText (.str "  hi  ") = "hi" ∧
    sanitizeText (.num 3) = "" ∧
    sanitizeText (.boolv true) = "" ∧
    sanitizeText .nullv = "" ∧
    sanitizeText .undef = "" := by
  refine ⟨?_, by decide, by decide, rfl, rfl, rfl, rfl⟩
  intro v
  cases v with
  | str s =>
    show String.mk (jsTrim (stripTags s.data)) =
      String.mk (jsTrim (specRemoveTags s.data))
    rw [specRemoveTags_eq_stripTags s.data.length s.data (Nat.le_refl _)]
  | num n => rfl
  | boolv b => rfl
  | nullv => rfl
  | undef => rfl
